import Mathlib

/-!
Verification of the pagination engine and its supporting subsystems of a
browser gallery-scraping extension. Each JavaScript class relevant to the
claims is shallowly embedded as a Lean structure with pure state-passing
functions; asynchronous side effects (toasts, status messages, storage)
become explicit components of the returned state.

Sources embedded here:
* `ContentHasher` (shared/content-hasher.js): bounded FIFO of content
  fingerprints.
* `AdaptiveTimer` (shared/adaptive-timer.js): latency history and optimal
  delay computation.
* `CheckpointManager` (shared/checkpoint-manager.js): versioned, TTL-guarded
  checkpoint slot.
* `StateManager.addImages` / `withLock` (background/state-manager.js):
  shared image collection with fileUrl dedup, and the advisory named lock.
* `DownloadManager.downloadItem` retry path (background/download-manager.js).
* `PaginationEngine` (content/pagination-engine.js): `start`/`stop`, the
  pagination loop's duplicate-detection logic, and auto method selection.
-/

namespace Chrome

/-! ## Constants (shared/constants.js) -/

/-- PAGINATION_CONFIG.MAX_PAGES -/
def MAX_PAGES : Nat := 50
/-- PAGINATION_CONFIG.MAX_ATTEMPTS -/
def MAX_ATTEMPTS : Nat := 50
/-- PAGINATION_CONFIG.DUPLICATE_CHECK_LOOKBACK -/
def DUPLICATE_CHECK_LOOKBACK : Nat := 10
/-- PAGINATION_CONFIG.ADAPTIVE_TIMING_MIN -/
def ADAPTIVE_TIMING_MIN : Nat := 1000
/-- PAGINATION_CONFIG.ADAPTIVE_TIMING_MAX -/
def ADAPTIVE_TIMING_MAX : Nat := 5000
/-- PAGINATION_CONFIG.ADAPTIVE_TIMING_DEFAULT -/
def ADAPTIVE_TIMING_DEFAULT : Nat := 2000
/-- DOWNLOAD_CONFIG.RETRY_ATTEMPTS -/
def RETRY_ATTEMPTS : Nat := 3
/-- DOWNLOAD_CONFIG.RETRY_DELAY (ms) -/
def RETRY_DELAY : Nat := 1000
/-- STATE_CONFIG.LOCK_TIMEOUT (ms) -/
def LOCK_TIMEOUT : Nat := 5000
/-- Checkpoint TTL: 24 * 60 * 60 * 1000 ms (checkpoint-manager.js line 49) -/
def CHECKPOINT_TTL : Nat := 24 * 60 * 60 * 1000

/-! ## ContentHasher (shared/content-hasher.js)

Fingerprints are SHA-256 hex digests in the source; they are opaque values
compared only for equality, so we model them as `Nat`. -/

structure ContentHasher where
  lookbackSize : Nat
  hashHistory : List Nat
deriving DecidableEq, Repr

namespace ContentHasher

/-- JS `new ContentHasher({lookbackSize})`: empty history. -/
def mk0 (lookbackSize : Nat) : ContentHasher :=
  { lookbackSize := lookbackSize, hashHistory := [] }

/-- JS `isDuplicate(hash)`: `this.hashHistory.includes(hash)`. -/
def isDuplicate (s : ContentHasher) (h : Nat) : Bool :=
  s.hashHistory.contains h

/-- JS `addHash(hash)` (content-hasher.js lines 60-68): push when absent,
`shift()` the oldest when the history exceeds `lookbackSize`. -/
def addHash (s : ContentHasher) (h : Nat) : ContentHasher :=
  if s.hashHistory.contains h then s
  else
    let pushed := s.hashHistory ++ [h]
    if s.lookbackSize < pushed.length then
      { s with hashHistory := pushed.tail }
    else
      { s with hashHistory := pushed }

/-- JS `clear()` -/
def clear (s : ContentHasher) : ContentHasher :=
  { s with hashHistory := [] }

end ContentHasher

/-! ## AdaptiveTimer (shared/adaptive-timer.js)

`Math.round(x)` for a non-negative JavaScript number is `⌊x + 1/2⌋`. For a
non-negative rational `a / b` this equals `(2 * a + b) / (2 * b)` under floor
division, which is how we compute it exactly over `Nat`. Latencies are
millisecond counts, modelled as `Nat` (recorded via an `Int` argument to keep
the source's `duration < 0` guard). Both constructions of `AdaptiveTimer` in
the repository pass only `minDelay`/`maxDelay`/`defaultDelay`, so
`multiplier` is always its default `1.5`; `Math.round(avg * 1.5)` is
`(3 * avg + 1) / 2` under floor division. -/

/-- JS `Math.round(a / b)` for naturals `a`, `b > 0`, computed exactly:
`⌊a / b + 1 / 2⌋ = ⌊(2 * a + b) / (2 * b)⌋`. -/
def jsRoundDiv (a b : Nat) : Nat := (2 * a + b) / (2 * b)

structure AdaptiveTimer where
  minDelay : Nat
  maxDelay : Nat
  defaultDelay : Nat
  historySize : Nat
  responseTimes : List Nat
deriving DecidableEq, Repr

namespace AdaptiveTimer

/-- The timer the `PaginationEngine` constructs: bounds and default from
`PAGINATION_CONFIG`, history size left at its default. -/
def engineTimer : AdaptiveTimer :=
  { minDelay := ADAPTIVE_TIMING_MIN
    maxDelay := ADAPTIVE_TIMING_MAX
    defaultDelay := ADAPTIVE_TIMING_DEFAULT
    historySize := 5
    responseTimes := [] }

/-- JS `recordResponseTime(duration)`: ignore negatives, push, evict the oldest
when the history exceeds `historySize`. -/
def recordResponseTime (t : AdaptiveTimer) (duration : Int) : AdaptiveTimer :=
  if duration < 0 then t
  else
    let pushed := t.responseTimes ++ [duration.toNat]
    if t.historySize < pushed.length then
      { t with responseTimes := pushed.tail }
    else
      { t with responseTimes := pushed }

/-- JS `getAverageResponseTime()`: `null` when no samples, else
`Math.round(sum / length)`. -/
def getAverageResponseTime (t : AdaptiveTimer) : Option Nat :=
  if t.responseTimes.length = 0 then none
  else some (jsRoundDiv t.responseTimes.sum t.responseTimes.length)

/-- JS `getOptimalDelay()` (adaptive-timer.js lines 36-53):
`Math.max(minDelay, Math.min(maxDelay, Math.round(avg * multiplier)))` with
`multiplier = 1.5`, or `defaultDelay` with no samples. -/
def getOptimalDelay (t : AdaptiveTimer) : Nat :=
  match t.getAverageResponseTime with
  | none => t.defaultDelay
  | some avg =>
    let calculatedDelay := (3 * avg + 1) / 2
    max t.minDelay (min t.maxDelay calculatedDelay)

/-- JS `reset()` -/
def reset (t : AdaptiveTimer) : AdaptiveTimer :=
  { t with responseTimes := [] }

end AdaptiveTimer

/-! ## Images and the shared collection (background/state-manager.js) -/

/-- One discovered image. Deduplication inspects only `fileUrl`; all other
fields (filename, caption, dimensions, ...) are summarised by `meta` so that
two distinct records can share a `fileUrl`. -/
structure Image where
  fileUrl : String
  meta : Nat
deriving DecidableEq, Repr

/-- Result of `StateManager.addImages`: the updated shared collection plus
the returned `{added, total}` counts. -/
structure AddResult where
  collection : List Image
  added : Nat
  total : Nat
deriving DecidableEq, Repr

/-- JS `StateManager.addImages(images)` (state-manager.js lines 157-172): filter
the batch against the current collection by `fileUrl`, append the survivors,
return `added` and `total` counts. -/
def addImages (collected : List Image) (images : List Image) : AddResult :=
  let uniqueImages :=
    images.filter (fun img => !(collected.any (fun e => e.fileUrl == img.fileUrl)))
  let newCollection := collected ++ uniqueImages
  { collection := newCollection
    added := uniqueImages.length
    total := newCollection.length }

/-- Feeding a sequence of batches to the shared collection. -/
def feedBatches (collected : List Image) (batches : List (List Image)) :
    List Image :=
  batches.foldl (fun c b => (addImages c b).collection) collected

/-- Specification-side helper: first-occurrence deduplication of a list of
urls, skipping anything in `seen`. This is the reference against which the
collection built by `addImages` is compared. -/
def keepFirstNew (seen : List String) : List String → List String
  | [] => []
  | u :: us =>
    if u ∈ seen then keepFirstNew seen us
    else u :: keepFirstNew (u :: seen) us

/-- The urls of a list of images, in order. -/
def urlsOf (l : List Image) : List String := l.map Image.fileUrl

/-! ## DownloadManager retry path (background/download-manager.js)

`downloadItem` (lines 97-154) catches a failed `chrome.downloads.download`;
if `item.retries < RETRY_ATTEMPTS` it increments `retries` and re-queues the
item after `RETRY_DELAY * item.retries` ms, otherwise it increments
`failedCount` and drops the item. We model the life of a single queue item
against an oracle listing the outcome of each dispatch attempt
(`true` = the download call succeeds). -/

inductive ItemOutcome where
  | succeeded
  | permanentFail
  | stillQueued
deriving DecidableEq, Repr

structure RetryRun where
  /-- the item's `retries` counter when the run ends -/
  finalRetries : Nat
  /-- how many times `failedCount` was incremented for this item -/
  permFailures : Nat
  /-- the delays (ms) of each scheduled re-queue, in order -/
  scheduledDelays : List Nat
  outcome : ItemOutcome
  /-- number of dispatch attempts performed -/
  attemptsUsed : Nat
deriving DecidableEq, Repr

/-- Life of one queue item whose `retries` field starts at `retries`, under
the attempt oracle `outcomes`. Mirrors the catch branch of `downloadItem`:
on failure with `retries < maxR` the counter is incremented first and the
re-queue is scheduled after `rDelay * (incremented retries)`. -/
def runItem (maxR rDelay : Nat) (retries : Nat) : List Bool → RetryRun
  | [] => ⟨retries, 0, [], .stillQueued, 0⟩
  | ok :: rest =>
    if ok then ⟨retries, 0, [], .succeeded, 1⟩
    else if retries < maxR then
      let r := runItem maxR rDelay (retries + 1) rest
      ⟨r.finalRetries, r.permFailures, rDelay * (retries + 1) :: r.scheduledDelays,
        r.outcome, r.attemptsUsed + 1⟩
    else ⟨retries, 1, [], .permanentFail, 1⟩

/-! ## Pagination states and engine settings (shared/constants.js) -/

inductive PagState where
  | IDLE
  | RUNNING
  | PAUSED
  | CANCELLED
  | COMPLETE
  | ERROR
deriving DecidableEq, Repr

/-- The engine's `this.settings` (pagination-engine.js constructor). -/
structure EngineSettings where
  paginationDelay : Nat
  scrollDelay : Nat
  enableAdaptiveTiming : Bool
  enableMemoryMonitoring : Bool
deriving DecidableEq, Repr

def defaultEngineSettings : EngineSettings :=
  { paginationDelay := 2
    scrollDelay := 500
    enableAdaptiveTiming := true
    enableMemoryMonitoring := true }

/-! ## CheckpointManager (shared/checkpoint-manager.js)

`chrome.storage.local` holds at most one checkpoint under a fixed key; we
model the slot as an `Option StoredCheckpoint` threaded through each
operation. Timestamps are `Date.now()` millisecond counts (`Nat`); the age
comparison is done in `Int` to mirror JavaScript subtraction. -/

/-- The `data` payload of a checkpoint (checkpoint-manager.js lines 15-22). -/
structure CheckpointData where
  currentPage : Nat
  collectedImages : List Image
  method : String
  settings : Option EngineSettings
  totalPages : Nat
  state : PagState
deriving DecidableEq, Repr

/-- A stored checkpoint record: `{timestamp, version, data}`. -/
structure StoredCheckpoint where
  timestamp : Nat
  version : String
  data : CheckpointData
deriving DecidableEq, Repr

namespace CheckpointManager

/-- The schema version written by `saveCheckpoint`. -/
def currentVersion : String := "1.0"

/-- JS `saveCheckpoint(data)`: overwrite the single slot with a fresh
timestamped, versioned record. (The fail-soft catch branch concerns storage
exceptions, outside this model.) -/
def saveCheckpoint (_store : Option StoredCheckpoint) (now : Nat)
    (d : CheckpointData) : Option StoredCheckpoint :=
  some { timestamp := now, version := currentVersion, data := d }

/-- JS `clearCheckpoint()` -/
def clearCheckpoint (_store : Option StoredCheckpoint) :
    Option StoredCheckpoint := none

/-- JS `loadCheckpoint()` (checkpoint-manager.js lines 35-64): returns the
payload and the storage slot after the call. Absent slot: `null`. Version
mismatch or age strictly above 24h: clear the slot, return `null`.
Otherwise return `checkpoint.data` and leave the slot untouched. -/
def loadCheckpoint (store : Option StoredCheckpoint) (now : Nat) :
    Option CheckpointData × Option StoredCheckpoint :=
  match store with
  | none => (none, none)
  | some cp =>
    if cp.version ≠ currentVersion then (none, clearCheckpoint store)
    else if (CHECKPOINT_TTL : Int) < (now : Int) - (cp.timestamp : Int) then
      (none, clearCheckpoint store)
    else (some cp.data, store)

/-- JS `shouldCheckpoint(currentPage)`: `currentPage % checkpointInterval === 0`
with `checkpointInterval = 5`. -/
def shouldCheckpoint (currentPage : Nat) : Bool :=
  currentPage % 5 == 0

end CheckpointManager

/-! ## PaginationEngine (content/pagination-engine.js)

The engine's mutable fields become an `EngineState`. Side channels
(`showToast`, `sendStatus`, `chrome.runtime.sendMessage`) carry no state the
engine later reads; `start` returns the list of toast messages it emits so
that "no-op apart from messaging" is expressible. The DOM, the extractor and
the clock are external: each loop iteration consumes an `IterInput` holding
what the externals produced during that iteration (memory reading, the
pagination method's boolean result, the post-action fingerprint, the
extracted images, the measured duration, the current time). -/

structure EngineState where
  method : String
  maxPages : Nat
  currentPage : Nat
  isActive : Bool
  attempts : Nat
  currentState : PagState
  hasher : ContentHasher
  timer : AdaptiveTimer
  settings : EngineSettings
  memoryMonitorRunning : Bool
  checkpointStore : Option StoredCheckpoint
  collectedImages : List Image
  hasExtractor : Bool
deriving DecidableEq, Repr

/-- A freshly constructed engine (pagination-engine.js constructor), before
`setImageExtractor`. -/
def initialEngine : EngineState :=
  { method := "auto"
    maxPages := MAX_PAGES
    currentPage := 1
    isActive := false
    attempts := 0
    currentState := .IDLE
    hasher := ContentHasher.mk0 DUPLICATE_CHECK_LOOKBACK
    timer := AdaptiveTimer.engineTimer
    settings := defaultEngineSettings
    memoryMonitorRunning := false
    checkpointStore := none
    collectedImages := []
    hasExtractor := false }

/-- A freshly constructed engine after `setImageExtractor`. -/
def readyEngine : EngineState :=
  { initialEngine with hasExtractor := true }

/-- JS `readyEngine` as `paginationLoop` first sees it inside `start()`:
active, `RUNNING`, zero attempts. -/
def runningEngine : EngineState :=
  { readyEngine with isActive := true, currentState := .RUNNING }

/-- What the externals feed one loop iteration. -/
structure IterInput where
  /-- JS `checkMemory()` reported `usageRatio ≥ 0.8` -/
  memoryHigh : Bool
  /-- result of `executeMethod()` -/
  methodSuccess : Bool
  /-- the post-action fingerprint `afterHash` -/
  afterHash : Nat
  /-- what `extractImagesWithLazyLoading` returned -/
  images : List Image
  /-- the measured page duration (ms) -/
  responseTime : Int
  /-- JS `Date.now()` during this iteration, used for checkpoint timestamps -/
  now : Nat
deriving DecidableEq, Repr

/-- How `paginationLoop` ended. `conditionFalse` is the `while` guard
failing; `outOfInputs` means the supplied iteration inputs were exhausted
with the guard still true. -/
inductive LoopExit where
  | conditionFalse
  | pausedWaitExit
  | cancelledBreak
  | noMorePages
  | duplicateContent
  | outOfInputs
deriving DecidableEq, Repr

/-- The snapshot `saveCheckpoint` receives from the engine
(pagination-engine.js lines 296-314). -/
def engineSnapshot (s : EngineState) : CheckpointData :=
  { currentPage := s.currentPage
    collectedImages := s.collectedImages
    method := s.method
    settings := some s.settings
    totalPages := s.maxPages
    state := s.currentState }

/-- JS `saveCheckpoint()` on the engine: write the snapshot into the slot. -/
def saveCheckpointE (s : EngineState) (now : Nat) : EngineState :=
  { s with checkpointStore :=
      CheckpointManager.saveCheckpoint s.checkpointStore now (engineSnapshot s) }

/-- JS `pause()` (pagination-engine.js lines 257-270): only from `RUNNING`;
sets `PAUSED` then saves a checkpoint. -/
def pauseE (s : EngineState) (now : Nat) : EngineState :=
  if s.currentState ≠ PagState.RUNNING then s
  else saveCheckpointE { s with currentState := .PAUSED } now

/-- JS `cancel()` (pagination-engine.js lines 285-294): from any state; sets
`CANCELLED`, deactivates, clears the checkpoint. -/
def cancelE (s : EngineState) : EngineState :=
  { s with currentState := .CANCELLED, isActive := false,
           checkpointStore := CheckpointManager.clearCheckpoint s.checkpointStore }

/-- JS `stop()` (pagination-engine.js lines 827-840): deactivate, set
`COMPLETE`, stop the memory monitor when memory monitoring is enabled,
clear the checkpoint. Note the state is set to `COMPLETE` unconditionally —
also when the caller had just set `ERROR`. -/
def stopE (s : EngineState) : EngineState :=
  { s with isActive := false
           currentState := .COMPLETE
           memoryMonitorRunning :=
             if s.settings.enableMemoryMonitoring then false
             else s.memoryMonitorRunning
           checkpointStore := CheckpointManager.clearCheckpoint s.checkpointStore }

/-- The state change of one successful, non-breaking loop iteration, applied
to the post-`attempts`-increment state `s1` (pagination-engine.js lines
167-197): record the new fingerprint, append the extracted images, record
the duration when adaptive timing is on, checkpoint when the page number is
a checkpoint multiple (the snapshot sees the already-appended images and the
pre-advance page), advance the page. -/
def iterUpdate (s1 : EngineState) (inp : IterInput) : EngineState :=
  let coll := s1.collectedImages ++ inp.images
  { s1 with
    hasher := s1.hasher.addHash inp.afterHash
    collectedImages := coll
    timer :=
      if s1.settings.enableAdaptiveTiming then
        s1.timer.recordResponseTime inp.responseTime
      else s1.timer
    checkpointStore :=
      if CheckpointManager.shouldCheckpoint s1.currentPage then
        CheckpointManager.saveCheckpoint s1.checkpointStore inp.now
          { currentPage := s1.currentPage
            collectedImages := coll
            method := s1.method
            settings := some s1.settings
            totalPages := s1.maxPages
            state := s1.currentState }
      else s1.checkpointStore
    currentPage := s1.currentPage + 1 }

/-- JS `paginationLoop()` (pagination-engine.js lines 112-203), driven by a
list of iteration inputs. One iteration: check the `while` guard; (the
`PAUSED`/`CANCELLED` branches, unreachable while the guard holds in this
single-threaded model, are kept as exits); on a high memory reading, `pause()`
and `continue` (the next guard check then exits, absent an external resume);
run the method, `false` breaks; increment `attempts`; break when the
post-action fingerprint is a known duplicate, else record it; append the
extracted images; record the duration when adaptive timing is on; checkpoint
when the page number is a checkpoint multiple; advance the page. -/
def paginationLoop (s : EngineState) : List IterInput → EngineState × LoopExit
  | [] => (s, .outOfInputs)
  | inp :: rest =>
    if ¬(s.isActive = true ∧ s.currentState = PagState.RUNNING ∧
          s.attempts < MAX_ATTEMPTS ∧ s.currentPage ≤ s.maxPages) then
      (s, .conditionFalse)
    else if s.currentState = PagState.PAUSED then (s, .pausedWaitExit)
    else if s.currentState = PagState.CANCELLED then (s, .cancelledBreak)
    else if s.settings.enableMemoryMonitoring = true ∧ inp.memoryHigh = true then
      paginationLoop (pauseE s inp.now) rest
    else if inp.methodSuccess = false then (s, .noMorePages)
    else
      let s1 : EngineState := { s with attempts := s.attempts + 1 }
      if s1.hasher.isDuplicate inp.afterHash then (s1, .duplicateContent)
      else paginationLoop (iterUpdate s1 inp) rest

/-- JS `start(method)` (pagination-engine.js lines 58-110). The loop itself is
abstracted by `loopEffect`, mapping the prepared running state to the state
when the loop returns plus whether it threw. Returns the final state and the
toast messages `start` itself emits. The checkpoint-settings merge of
`updateSettings` is modelled as replacement (every field of the stored
settings object is present in this model). -/
def startE (s : EngineState) (method : String) (now : Nat)
    (loopEffect : EngineState → EngineState × Bool) :
    EngineState × List String :=
  if s.isActive then (s, ["Pagination is already running"])
  else if s.hasExtractor = false then (s, ["Image extractor not initialized"])
  else
    let loaded := CheckpointManager.loadCheckpoint s.checkpointStore now
    let s0 : EngineState := { s with checkpointStore := loaded.2 }
    let resumeToasts :=
      match loaded.1 with
      | some _ => ["Resume from checkpoint page?"]
      | none => []
    let s0 : EngineState :=
      match loaded.1 with
      | some cp =>
        let s' : EngineState :=
          { s0 with currentPage := cp.currentPage
                    collectedImages := cp.collectedImages
                    method := if cp.method = "" then method else cp.method }
        match cp.settings with
        | some st => { s' with settings := st }
        | none => s'
      | none => { s0 with method := method, currentPage := 1, collectedImages := [] }
    let s0 : EngineState :=
      { s0 with isActive := true
                currentState := .RUNNING
                attempts := 0
                hasher := s0.hasher.clear
                timer := s0.timer.reset }
    let s0 : EngineState :=
      if s0.settings.enableMemoryMonitoring then
        { s0 with memoryMonitorRunning := true }
      else s0
    let run := loopEffect s0
    let s1 := run.1
    let threw := run.2
    let s2 : EngineState :=
      if threw then { s1 with currentState := .ERROR } else s1
    let errorToasts := if threw then ["Pagination error"] else []
    (stopE s2,
      resumeToasts ++ ["Starting pagination"] ++ errorToasts
        ++ ["Pagination complete"])

/-! ## Auto method selection (pagination-engine.js lines 368-394) -/

inductive PagMethod where
  | nextButton
  | loadMore
  | infiniteScroll
  | arrow
  | urlPattern
  | api
deriving DecidableEq, Repr

/-- Availability results from `detectPaginationMethods()`. -/
structure DetectedMethods where
  nextButton : Bool
  loadMore : Bool
  infiniteScroll : Bool
  arrow : Bool
  urlPattern : Bool
  api : Bool
deriving DecidableEq, Repr

/-- Which detector reported a given method available. -/
def DetectedMethods.availableFor (m : DetectedMethods) : PagMethod → Bool
  | .nextButton => m.nextButton
  | .loadMore => m.loadMore
  | .infiniteScroll => m.infiniteScroll
  | .arrow => m.arrow
  | .urlPattern => m.urlPattern
  | .api => m.api

/-- The method `autoDetectAndExecute` picks: the if/else-if chain of
pagination-engine.js lines 371-389, `none` when nothing is available. -/
def autoSelect (m : DetectedMethods) : Option PagMethod :=
  if m.nextButton then some .nextButton
  else if m.loadMore then some .loadMore
  else if m.arrow then some .arrow
  else if m.urlPattern then some .urlPattern
  else if m.api then some .api
  else if m.infiniteScroll then some .infiniteScroll
  else none

/-- JS `autoDetectAndExecute()` as a whole: run the selected method's executor
(external, summarised by `exec`), or return `false` when no method was
detected. -/
def autoDetectAndExecute (m : DetectedMethods) (exec : PagMethod → Bool) : Bool :=
  match autoSelect m with
  | some meth => exec meth
  | none => false

/-- The spec's fixed priority order for auto mode. -/
def priorityOrder : List PagMethod :=
  [.nextButton, .loadMore, .arrow, .urlPattern, .api, .infiniteScroll]

/-! ## StateManager.withLock (state-manager.js lines 237-265)

Two concurrent `withLock(name, op)` calls on the same name, in one
JavaScript execution context: cooperative single-threaded interleaving, so
each synchronous slice between `await`s is atomic. The relevant slices are:

* the final poll iteration of `acquireLock` where `locks.has(name)` is
  false followed by `locks.set(name, ...)` — an atomic test-and-set;
* a poll iteration where the lock is held and
  `Date.now() - startTime > timeout` — `acquireLock` throws, and
  `withLock`'s `finally` immediately runs `releaseLock`, which deletes the
  entry whoever holds it;
* the steps of the critical section `operation()`;
* the `finally` release after `operation()` returns or throws.

A task is `waiting st` (inside the acquisition poll since time `st`),
`crit k` (inside its critical section with `k` atomic steps left; the
release that follows is unconditional, so an `operation` that throws behaves
like one that finishes early), `done`, or `failed` (lock-timeout error).
`tick` lets the clock advance between slices. -/

inductive Phase where
  | waiting (start : Nat)
  | crit (k : Nat)
  | done
  | failed
deriving DecidableEq, Repr

def Phase.isCrit : Phase → Bool
  | .crit _ => true
  | _ => false

def Phase.isWaiting : Phase → Bool
  | .waiting _ => true
  | _ => false

/-- Phases only move forward: waiting, then critical section, then
done/failed. -/
def Phase.rank : Phase → Nat
  | .waiting _ => 0
  | .crit _ => 1
  | .done => 2
  | .failed => 2

/-- The lock-name's entry in `this.locks` plus both callers and the clock. -/
structure LockSys where
  lock : Bool
  t1 : Phase
  t2 : Phase
  now : Nat
deriving DecidableEq, Repr

/-- Atomic steps of the two-caller `withLock` system. `tmo` is the
acquisition timeout (`STATE_CONFIG.LOCK_TIMEOUT`), `n1`/`n2` the lengths of
the two critical sections. -/
inductive LockStep (tmo n1 n2 : Nat) : LockSys → LockSys → Prop where
  | acquire1 (s : LockSys) (st : Nat) :
      s.t1 = .waiting st → s.lock = false →
      LockStep tmo n1 n2 s { s with lock := true, t1 := .crit n1 }
  | acquire2 (s : LockSys) (st : Nat) :
      s.t2 = .waiting st → s.lock = false →
      LockStep tmo n1 n2 s { s with lock := true, t2 := .crit n2 }
  | timeout1 (s : LockSys) (st : Nat) :
      s.t1 = .waiting st → s.lock = true → tmo < s.now - st →
      LockStep tmo n1 n2 s { s with lock := false, t1 := .failed }
  | timeout2 (s : LockSys) (st : Nat) :
      s.t2 = .waiting st → s.lock = true → tmo < s.now - st →
      LockStep tmo n1 n2 s { s with lock := false, t2 := .failed }
  | critStep1 (s : LockSys) (k : Nat) :
      s.t1 = .crit (k + 1) →
      LockStep tmo n1 n2 s { s with t1 := .crit k }
  | critStep2 (s : LockSys) (k : Nat) :
      s.t2 = .crit (k + 1) →
      LockStep tmo n1 n2 s { s with t2 := .crit k }
  | release1 (s : LockSys) :
      s.t1 = .crit 0 →
      LockStep tmo n1 n2 s { s with lock := false, t1 := .done }
  | release2 (s : LockSys) :
      s.t2 = .crit 0 →
      LockStep tmo n1 n2 s { s with lock := false, t2 := .done }
  | tick (s : LockSys) :
      LockStep tmo n1 n2 s { s with now := s.now + 1 }

/-- Reflexive-transitive closure of `LockStep`. -/
inductive LockReach (tmo n1 n2 : Nat) : LockSys → LockSys → Prop where
  | refl (s : LockSys) : LockReach tmo n1 n2 s s
  | tail {s t u : LockSys} :
      LockReach tmo n1 n2 s t → LockStep tmo n1 n2 t u → LockReach tmo n1 n2 s u

/-- Both callers have just invoked `withLock`: lock free, both polling. -/
def LockInit (s : LockSys) : Prop :=
  s.lock = false ∧ s.t1.isWaiting = true ∧ s.t2.isWaiting = true

/-- The inductive invariant of the lock system. -/
def LockInv (s : LockSys) : Prop :=
  (s.t1.isCrit = true → s.t2.isCrit = true → False) ∧
  (s.t1.isCrit = true → s.t2.isWaiting = true → s.lock = true) ∧
  (s.t2.isCrit = true → s.t1.isWaiting = true → s.lock = true) ∧
  (s.lock = true → s.t1.isCrit = true ∨ s.t2.isCrit = true)

/-- A concrete checkpoint payload for the C6 witness. -/
def witnessData : CheckpointData :=
  { currentPage := 7
    collectedImages := []
    method := "auto"
    settings := none
    totalPages := 50
    state := .RUNNING }

/-! # Theorems -/

/-! ## ContentHasher lemmas (claim C5) -/

namespace ContentHasher

theorem contains_eq_decide_mem (l : List Nat) (h : Nat) :
    l.contains h = decide (h ∈ l) := by
  simp [List.contains]

theorem addHash_of_mem (s : ContentHasher) (h : Nat)
    (hm : h ∈ s.hashHistory) : s.addHash h = s := by
  unfold addHash
  rw [contains_eq_decide_mem]
  simp [hm]

theorem addHash_of_not_mem (s : ContentHasher) (h : Nat)
    (hm : h ∉ s.hashHistory) :
    s.addHash h =
      if s.lookbackSize < s.hashHistory.length + 1 then
        { s with hashHistory := (s.hashHistory ++ [h]).tail }
      else { s with hashHistory := s.hashHistory ++ [h] } := by
  unfold addHash
  rw [contains_eq_decide_mem]
  simp [hm]

theorem lookback_addHash (s : ContentHasher) (h : Nat) :
    (s.addHash h).lookbackSize = s.lookbackSize := by
  by_cases hm : h ∈ s.hashHistory
  · rw [addHash_of_mem s h hm]
  · rw [addHash_of_not_mem s h hm]
    split <;> rfl

theorem length_addHash_le (s : ContentHasher) (h : Nat)
    (hl : s.hashHistory.length ≤ s.lookbackSize) :
    (s.addHash h).hashHistory.length ≤ s.lookbackSize := by
  by_cases hm : h ∈ s.hashHistory
  · rw [addHash_of_mem s h hm]
    exact hl
  · rw [addHash_of_not_mem s h hm]
    split
    · next hc =>
      simp [List.length_tail]
      omega
    · next hc =>
      have := Nat.not_lt.mp hc
      simpa using this

theorem addHash_evict (s : ContentHasher) (h : Nat)
    (hm : h ∉ s.hashHistory) (hl : s.hashHistory.length = s.lookbackSize)
    (hc : 1 ≤ s.lookbackSize) :
    (s.addHash h).hashHistory = s.hashHistory.tail ++ [h] := by
  rw [addHash_of_not_mem s h hm]
  have hlt : s.lookbackSize < s.hashHistory.length + 1 := by omega
  have hne : s.hashHistory ≠ [] := by
    intro e
    rw [e] at hl
    simp at hl
    omega
  simp only [if_pos hlt]
  have := @List.tail_append_of_ne_nil _ s.hashHistory [h] hne
  simp [this]

theorem foldl_addHash_fill (l : List Nat) :
    ∀ (s : ContentHasher), (s.hashHistory ++ l).Nodup →
    (s.hashHistory ++ l).length ≤ s.lookbackSize →
    (l.foldl addHash s).hashHistory = s.hashHistory ++ l := by
  induction l with
  | nil =>
    intro s _ _
    simp
  | cons a l ih =>
    intro s hnd hlen
    have ha : a ∉ s.hashHistory := by
      rw [List.nodup_append] at hnd
      exact fun hmem => hnd.2.2 hmem (List.mem_cons_self a l)
    have hle : s.hashHistory.length + 1 + l.length ≤ s.lookbackSize := by
      simpa [Nat.add_assoc, Nat.add_comm, Nat.add_left_comm] using hlen
    have hstep : s.addHash a = { s with hashHistory := s.hashHistory ++ [a] } := by
      rw [addHash_of_not_mem s a ha]
      have : ¬ s.lookbackSize < s.hashHistory.length + 1 := by omega
      simp [this]
    rw [List.foldl_cons, hstep]
    have hres := ih { s with hashHistory := s.hashHistory ++ [a] }
      (by simpa using hnd) (by simp; omega)
    simpa using hres

theorem foldl_lookback (l : List Nat) :
    ∀ (s : ContentHasher), (l.foldl addHash s).lookbackSize = s.lookbackSize := by
  induction l with
  | nil => intro s; rfl
  | cons a l ih =>
    intro s
    rw [List.foldl_cons, ih, lookback_addHash]

theorem foldl_length_le (l : List Nat) :
    ∀ (s : ContentHasher), s.hashHistory.length ≤ s.lookbackSize →
    (l.foldl addHash s).hashHistory.length ≤ (l.foldl addHash s).lookbackSize := by
  induction l with
  | nil =>
    intro s hs
    simpa using hs
  | cons a l ih =>
    intro s hs
    rw [List.foldl_cons]
    exact ih _ (by rw [lookback_addHash]; exact length_addHash_le s a hs)

/-- After `capacity + 1` distinct hashes from an empty history, the history
is exactly the most recent `capacity` of them. -/
theorem foldl_overflow (cap : Nat) (a : Nat) (rest : List Nat)
    (hnd : (a :: rest).Nodup) (hlen : rest.length = cap) :
    ((a :: rest).foldl addHash (mk0 cap)).hashHistory = rest := by
  have hmk : (mk0 cap).hashHistory = [] := rfl
  have hmkc : (mk0 cap).lookbackSize = cap := rfl
  rcases List.eq_nil_or_concat rest with hnil | ⟨front, z, hfz⟩
  · subst hnil
    simp at hlen
    subst hlen
    simp [mk0, addHash]
  · subst hfz
    simp only [List.concat_eq_append] at hnd hlen ⊢
    have hlen' : front.length + 1 = cap := by simpa using hlen
    have hndsplit : ((a :: front) ++ [z]).Nodup := by
      rw [List.cons_append]
      exact hnd
    rw [List.nodup_append] at hndsplit
    obtain ⟨hnd1, _, hdisj⟩ := hndsplit
    have hfill : ((a :: front).foldl addHash (mk0 cap)).hashHistory
        = a :: front := by
      have h := foldl_addHash_fill (a :: front) (mk0 cap)
        (by rw [hmk, List.nil_append]; exact hnd1)
        (by rw [hmk, List.nil_append, hmkc]; simp; omega)
      rw [hmk, List.nil_append] at h
      exact h
    have hcap : ((a :: front).foldl addHash (mk0 cap)).lookbackSize = cap := by
      rw [foldl_lookback, hmkc]
    have hz : z ∉ ((a :: front).foldl addHash (mk0 cap)).hashHistory := by
      rw [hfill]
      exact fun hzm => hdisj hzm (List.mem_singleton.mpr rfl)
    have hgoal : a :: (front ++ [z]) = (a :: front) ++ [z] := by simp
    rw [hgoal, List.foldl_append, List.foldl_cons, List.foldl_nil]
    rw [addHash_evict _ z hz (by rw [hfill, hcap]; simpa using hlen')
      (by rw [hcap]; omega)]
    rw [hfill]
    rfl

end ContentHasher

/-- C5: Over every sequence of `addHash` calls starting from an empty
history, the hash history never exceeds the configured lookback size;
`addHash` of a hash already in history leaves the hasher unchanged
(idempotent); when a new hash arrives with the history full, the oldest
entry is evicted first (FIFO); and after `capacity + 1` distinct hashes the
history is exactly the most recent `capacity` of them, so `isDuplicate` is
`false` on the oldest and `true` on each of the rest. -/
theorem contentHasher_bounded_fifo_idempotent :
    (∀ (cap : Nat) (hs : List Nat),
      (hs.foldl ContentHasher.addHash (ContentHasher.mk0 cap)).hashHistory.length
        ≤ cap) ∧
    (∀ (s : ContentHasher) (h : Nat), h ∈ s.hashHistory → s.addHash h = s) ∧
    (∀ (s : ContentHasher) (h : Nat), h ∉ s.hashHistory →
      s.hashHistory.length = s.lookbackSize → 1 ≤ s.lookbackSize →
      (s.addHash h).hashHistory = s.hashHistory.tail ++ [h]) ∧
    (∀ (cap : Nat) (a : Nat) (rest : List Nat),
      (a :: rest).Nodup → rest.length = cap →
      ((a :: rest).foldl ContentHasher.addHash (ContentHasher.mk0 cap)).hashHistory
          = rest ∧
      ContentHasher.isDuplicate
          ((a :: rest).foldl ContentHasher.addHash (ContentHasher.mk0 cap)) a
          = false ∧
      ∀ h ∈ rest,
        ContentHasher.isDuplicate
          ((a :: rest).foldl ContentHasher.addHash (ContentHasher.mk0 cap)) h
          = true) := by
  refine ⟨?_, ContentHasher.addHash_of_mem, ContentHasher.addHash_evict, ?_⟩
  · intro cap hs
    have := ContentHasher.foldl_length_le hs (ContentHasher.mk0 cap)
      (by simp [ContentHasher.mk0])
    rwa [ContentHasher.foldl_lookback] at this
  · intro cap a rest hnd hlen
    have hov := ContentHasher.foldl_overflow cap a rest hnd hlen
    refine ⟨hov, ?_, ?_⟩
    · unfold ContentHasher.isDuplicate
      rw [ContentHasher.contains_eq_decide_mem, hov]
      have : a ∉ rest := (List.nodup_cons.mp hnd).1
      simp [this]
    · intro h hm
      unfold ContentHasher.isDuplicate
      rw [ContentHasher.contains_eq_decide_mem, hov]
      simp [hm]

/-- Witness for C5 at capacity 2 with hashes `[7, 1, 2]`. -/
theorem contentHasher_bounded_fifo_idempotent_witness :
    (7 ∈ (⟨2, [5, 7]⟩ : ContentHasher).hashHistory ∧
      (⟨2, [5, 7]⟩ : ContentHasher).addHash 7 = ⟨2, [5, 7]⟩) ∧
    ((7 :: [1, 2]).Nodup ∧ [1, 2].length = 2 ∧
      (([7, 1, 2].foldl ContentHasher.addHash (ContentHasher.mk0 2)).hashHistory
        = [1, 2] ∧
       ContentHasher.isDuplicate
        ([7, 1, 2].foldl ContentHasher.addHash (ContentHasher.mk0 2)) 7 = false)) :=
  ⟨⟨by decide,
    contentHasher_bounded_fifo_idempotent.2.1 ⟨2, [5, 7]⟩ 7 (by decide)⟩,
   by decide, by decide,
   (contentHasher_bounded_fifo_idempotent.2.2.2 2 7 [1, 2] (by decide)
      (by decide)).1,
   (contentHasher_bounded_fifo_idempotent.2.2.2 2 7 [1, 2] (by decide)
      (by decide)).2.1⟩

/-! ## AdaptiveTimer theorem (claim C7) -/

/-- C7: `getOptimalDelay()` is `defaultDelay` with zero samples, otherwise
the clamp of `Math.round(average * 1.5)` into `[minDelay, maxDelay]`; under
a configuration with `minDelay ≤ defaultDelay ≤ maxDelay` (as the engine's
1000/2000/5000 is) every output lies in `[minDelay, maxDelay]`; and the
engine-configured timer on samples `[1000, 1000, 1000]` returns 1500. -/
theorem adaptiveTimer_optimalDelay_clamped (t : AdaptiveTimer) :
    (t.responseTimes = [] → t.getOptimalDelay = t.defaultDelay) ∧
    (t.responseTimes ≠ [] →
      t.getOptimalDelay =
        max t.minDelay (min t.maxDelay
          ((3 * jsRoundDiv t.responseTimes.sum t.responseTimes.length + 1) / 2))) ∧
    (t.minDelay ≤ t.defaultDelay → t.defaultDelay ≤ t.maxDelay →
      t.minDelay ≤ t.getOptimalDelay ∧ t.getOptimalDelay ≤ t.maxDelay) ∧
    AdaptiveTimer.getOptimalDelay
      { AdaptiveTimer.engineTimer with responseTimes := [1000, 1000, 1000] }
      = 1500 := by
  refine ⟨?_, ?_, ?_, by decide⟩
  · intro he
    unfold AdaptiveTimer.getOptimalDelay AdaptiveTimer.getAverageResponseTime
    simp [he]
  · intro he
    unfold AdaptiveTimer.getOptimalDelay AdaptiveTimer.getAverageResponseTime
    have : ¬ t.responseTimes.length = 0 := by
      simpa [List.length_eq_zero] using he
    simp only [if_neg this]
  · intro h1 h2
    unfold AdaptiveTimer.getOptimalDelay AdaptiveTimer.getAverageResponseTime
    by_cases hlen : t.responseTimes.length = 0
    · simp only [if_pos hlen]
      exact ⟨h1, h2⟩
    · simp only [if_neg hlen]
      constructor
      · exact Nat.le_max_left _ _
      · have hmm : t.minDelay ≤ t.maxDelay := Nat.le_trans h1 h2
        exact Nat.max_le.mpr ⟨hmm, Nat.min_le_left _ _⟩

/-! ## Pagination loop step lemmas (claims C4, C9, C1, C10) -/

theorem iterUpdate_isActive (s : EngineState) (inp : IterInput) :
    (iterUpdate s inp).isActive = s.isActive := rfl

theorem iterUpdate_currentState (s : EngineState) (inp : IterInput) :
    (iterUpdate s inp).currentState = s.currentState := rfl

theorem iterUpdate_attempts (s : EngineState) (inp : IterInput) :
    (iterUpdate s inp).attempts = s.attempts := rfl

theorem iterUpdate_currentPage (s : EngineState) (inp : IterInput) :
    (iterUpdate s inp).currentPage = s.currentPage + 1 := rfl

theorem iterUpdate_maxPages (s : EngineState) (inp : IterInput) :
    (iterUpdate s inp).maxPages = s.maxPages := rfl

theorem iterUpdate_settings (s : EngineState) (inp : IterInput) :
    (iterUpdate s inp).settings = s.settings := rfl

theorem iterUpdate_hasher (s : EngineState) (inp : IterInput) :
    (iterUpdate s inp).hasher = s.hasher.addHash inp.afterHash := rfl

theorem paginationLoop_cons_noMore (s : EngineState) (inp : IterInput)
    (rest : List IterInput)
    (hact : s.isActive = true) (hrun : s.currentState = PagState.RUNNING)
    (hatt : s.attempts < MAX_ATTEMPTS) (hpage : s.currentPage ≤ s.maxPages)
    (hmem : s.settings.enableMemoryMonitoring = false ∨ inp.memoryHigh = false)
    (hms : inp.methodSuccess = false) :
    paginationLoop s (inp :: rest) = (s, .noMorePages) := by
  have hguard : s.isActive = true ∧ s.currentState = PagState.RUNNING ∧
      s.attempts < MAX_ATTEMPTS ∧ s.currentPage ≤ s.maxPages :=
    ⟨hact, hrun, hatt, hpage⟩
  show (if ¬(s.isActive = true ∧ s.currentState = PagState.RUNNING ∧
          s.attempts < MAX_ATTEMPTS ∧ s.currentPage ≤ s.maxPages) then
        (s, LoopExit.conditionFalse)
      else if s.currentState = PagState.PAUSED then (s, .pausedWaitExit)
      else if s.currentState = PagState.CANCELLED then (s, .cancelledBreak)
      else if s.settings.enableMemoryMonitoring = true ∧ inp.memoryHigh = true then
        paginationLoop (pauseE s inp.now) rest
      else if inp.methodSuccess = false then (s, .noMorePages)
      else
        let s1 : EngineState := { s with attempts := s.attempts + 1 }
        if s1.hasher.isDuplicate inp.afterHash then (s1, .duplicateContent)
        else paginationLoop (iterUpdate s1 inp) rest)
      = (s, .noMorePages)
  rw [if_neg (not_not_intro hguard),
    if_neg (by rw [hrun]; exact fun h => by cases h),
    if_neg (by rw [hrun]; exact fun h => by cases h),
    if_neg (by rcases hmem with h | h <;> simp [h]),
    if_pos hms]

theorem paginationLoop_cons_dup (s : EngineState) (inp : IterInput)
    (rest : List IterInput)
    (hact : s.isActive = true) (hrun : s.currentState = PagState.RUNNING)
    (hatt : s.attempts < MAX_ATTEMPTS) (hpage : s.currentPage ≤ s.maxPages)
    (hmem : s.settings.enableMemoryMonitoring = false ∨ inp.memoryHigh = false)
    (hms : inp.methodSuccess = true)
    (hdup : s.hasher.isDuplicate inp.afterHash = true) :
    paginationLoop s (inp :: rest)
      = ({ s with attempts := s.attempts + 1 }, .duplicateContent) := by
  have hguard : s.isActive = true ∧ s.currentState = PagState.RUNNING ∧
      s.attempts < MAX_ATTEMPTS ∧ s.currentPage ≤ s.maxPages :=
    ⟨hact, hrun, hatt, hpage⟩
  show (if ¬(s.isActive = true ∧ s.currentState = PagState.RUNNING ∧
          s.attempts < MAX_ATTEMPTS ∧ s.currentPage ≤ s.maxPages) then
        (s, LoopExit.conditionFalse)
      else if s.currentState = PagState.PAUSED then (s, .pausedWaitExit)
      else if s.currentState = PagState.CANCELLED then (s, .cancelledBreak)
      else if s.settings.enableMemoryMonitoring = true ∧ inp.memoryHigh = true then
        paginationLoop (pauseE s inp.now) rest
      else if inp.methodSuccess = false then (s, .noMorePages)
      else
        let s1 : EngineState := { s with attempts := s.attempts + 1 }
        if s1.hasher.isDuplicate inp.afterHash then (s1, .duplicateContent)
        else paginationLoop (iterUpdate s1 inp) rest)
      = ({ s with attempts := s.attempts + 1 }, .duplicateContent)
  rw [if_neg (not_not_intro hguard),
    if_neg (by rw [hrun]; exact fun h => by cases h),
    if_neg (by rw [hrun]; exact fun h => by cases h),
    if_neg (by rcases hmem with h | h <;> simp [h]),
    if_neg (by rw [hms]; exact fun h => by cases h)]
  show (if ({ s with attempts := s.attempts + 1 } :
      EngineState).hasher.isDuplicate inp.afterHash then _ else _) = _
  rw [if_pos (by exact hdup)]

theorem paginationLoop_cons_success (s : EngineState) (inp : IterInput)
    (rest : List IterInput)
    (hact : s.isActive = true) (hrun : s.currentState = PagState.RUNNING)
    (hatt : s.attempts < MAX_ATTEMPTS) (hpage : s.currentPage ≤ s.maxPages)
    (hmem : s.settings.enableMemoryMonitoring = false ∨ inp.memoryHigh = false)
    (hms : inp.methodSuccess = true)
    (hdup : s.hasher.isDuplicate inp.afterHash = false) :
    paginationLoop s (inp :: rest)
      = paginationLoop (iterUpdate { s with attempts := s.attempts + 1 } inp)
          rest := by
  have hguard : s.isActive = true ∧ s.currentState = PagState.RUNNING ∧
      s.attempts < MAX_ATTEMPTS ∧ s.currentPage ≤ s.maxPages :=
    ⟨hact, hrun, hatt, hpage⟩
  show (if ¬(s.isActive = true ∧ s.currentState = PagState.RUNNING ∧
          s.attempts < MAX_ATTEMPTS ∧ s.currentPage ≤ s.maxPages) then
        (s, LoopExit.conditionFalse)
      else if s.currentState = PagState.PAUSED then (s, .pausedWaitExit)
      else if s.currentState = PagState.CANCELLED then (s, .cancelledBreak)
      else if s.settings.enableMemoryMonitoring = true ∧ inp.memoryHigh = true then
        paginationLoop (pauseE s inp.now) rest
      else if inp.methodSuccess = false then (s, .noMorePages)
      else
        let s1 : EngineState := { s with attempts := s.attempts + 1 }
        if s1.hasher.isDuplicate inp.afterHash then (s1, .duplicateContent)
        else paginationLoop (iterUpdate s1 inp) rest)
      = paginationLoop (iterUpdate { s with attempts := s.attempts + 1 } inp)
          rest
  rw [if_neg (not_not_intro hguard),
    if_neg (by rw [hrun]; exact fun h => by cases h),
    if_neg (by rw [hrun]; exact fun h => by cases h),
    if_neg (by rcases hmem with h | h <;> simp [h]),
    if_neg (by rw [hms]; exact fun h => by cases h)]
  show (if ({ s with attempts := s.attempts + 1 } :
      EngineState).hasher.isDuplicate inp.afterHash then _ else _) = _
  rw [if_neg (by rw [show ({ s with attempts := s.attempts + 1 } :
      EngineState).hasher = s.hasher from rfl, hdup]; exact fun h => by cases h)]

/-- Adding a hash to an empty history of positive capacity yields a
one-element history. -/
theorem addHash_empty (hasher : ContentHasher) (A : Nat)
    (hhist : hasher.hashHistory = []) (hcap : 1 ≤ hasher.lookbackSize) :
    (hasher.addHash A).hashHistory = [A] := by
  have hnm : A ∉ hasher.hashHistory := by
    rw [hhist]
    exact List.not_mem_nil A
  rw [ContentHasher.addHash_of_not_mem hasher A hnm]
  have hc : ¬ hasher.lookbackSize < hasher.hashHistory.length + 1 := by
    rw [hhist]
    simp
    omega
  rw [if_neg hc]
  simp [hhist]

/-- Adding a fresh hash to a one-element history of capacity at least 2. -/
theorem addHash_one (hasher : ContentHasher) (A B : Nat)
    (hhist : hasher.hashHistory = [A]) (hAB : B ≠ A)
    (hcap : 2 ≤ hasher.lookbackSize) :
    (hasher.addHash B).hashHistory = [A, B] := by
  have hnm : B ∉ hasher.hashHistory := by
    rw [hhist]
    simp [hAB]
  rw [ContentHasher.addHash_of_not_mem hasher B hnm]
  have hc : ¬ hasher.lookbackSize < hasher.hashHistory.length + 1 := by
    rw [hhist]
    simp
    omega
  rw [if_neg hc]
  simp [hhist]

/-- C4: In a fresh run (empty fingerprint history) with lookback capacity at
least 2, if the successive post-action fingerprints are `A, B, A` (with
`A ≠ B`), the loop breaks with `duplicateContent` upon computing the second
`A`, having then made 3 attempts and stored history `[A, B]`; while with
three pairwise-distinct fingerprints `A, B, C` the loop runs through all
three iterations without the duplicate check firing. -/
theorem fingerprint_loop_detection
    (s : EngineState) (A B : Nat) (i1 i2 i3 : IterInput)
    (rest : List IterInput)
    (hAB : A ≠ B)
    (hcap : 2 ≤ s.hasher.lookbackSize)
    (hhist : s.hasher.hashHistory = [])
    (hact : s.isActive = true) (hrun : s.currentState = PagState.RUNNING)
    (hatt : s.attempts = 0) (hpage : s.currentPage + 2 ≤ s.maxPages)
    (h1m : i1.memoryHigh = false) (h1s : i1.methodSuccess = true)
    (h1h : i1.afterHash = A)
    (h2m : i2.memoryHigh = false) (h2s : i2.methodSuccess = true)
    (h2h : i2.afterHash = B)
    (h3m : i3.memoryHigh = false) (h3s : i3.methodSuccess = true)
    (h3h : i3.afterHash = A) :
    (paginationLoop s (i1 :: i2 :: i3 :: rest)).2 = .duplicateContent ∧
    (paginationLoop s (i1 :: i2 :: i3 :: rest)).1.attempts = 3 ∧
    (paginationLoop s (i1 :: i2 :: i3 :: rest)).1.hasher.hashHistory = [A, B] ∧
    (∀ (C : Nat) (j3 : IterInput), C ≠ A → C ≠ B →
      j3.memoryHigh = false → j3.methodSuccess = true → j3.afterHash = C →
      (paginationLoop s [i1, i2, j3]).2 = LoopExit.outOfInputs) := by
  have hdup1 : s.hasher.isDuplicate i1.afterHash = false := by
    unfold ContentHasher.isDuplicate
    rw [hhist]
    rfl
  set s1 : EngineState := iterUpdate { s with attempts := s.attempts + 1 } i1
    with hs1def
  have h1act : s1.isActive = true := hact
  have h1run : s1.currentState = PagState.RUNNING := hrun
  have h1att : s1.attempts = 1 := by
    show s.attempts + 1 = 1
    rw [hatt]
  have h1page : s1.currentPage = s.currentPage + 1 := rfl
  have h1max : s1.maxPages = s.maxPages := rfl
  have h1hasher : s1.hasher.hashHistory = [A] := by
    show (s.hasher.addHash i1.afterHash).hashHistory = [A]
    rw [h1h]
    exact addHash_empty s.hasher A hhist (by omega)
  have h1cap : s1.hasher.lookbackSize = s.hasher.lookbackSize := by
    show (s.hasher.addHash i1.afterHash).lookbackSize = _
    exact ContentHasher.lookback_addHash s.hasher i1.afterHash
  have hdup2 : s1.hasher.isDuplicate i2.afterHash = false := by
    unfold ContentHasher.isDuplicate
    rw [h1hasher, h2h, ContentHasher.contains_eq_decide_mem]
    simp [List.mem_singleton]
    exact fun h => hAB h.symm
  set s2 : EngineState := iterUpdate { s1 with attempts := s1.attempts + 1 } i2
    with hs2def
  have h2act : s2.isActive = true := hact
  have h2run : s2.currentState = PagState.RUNNING := hrun
  have h2att : s2.attempts = 2 := by
    show s1.attempts + 1 = 2
    rw [h1att]
  have h2page : s2.currentPage = s.currentPage + 2 := by
    show s1.currentPage + 1 = s.currentPage + 2
    rw [h1page]
  have h2max : s2.maxPages = s.maxPages := rfl
  have h2hasher : s2.hasher.hashHistory = [A, B] := by
    show (s1.hasher.addHash i2.afterHash).hashHistory = [A, B]
    rw [h2h]
    exact addHash_one s1.hasher A B h1hasher (Ne.symm hAB)
      (by rw [h1cap]; exact hcap)
  have hstep1 : ∀ tl, paginationLoop s (i1 :: tl) = paginationLoop s1 tl := by
    intro tl
    rw [paginationLoop_cons_success s i1 tl hact hrun (by rw [hatt]; decide)
      (by omega) (Or.inr h1m) h1s hdup1]
  have hstep2 : ∀ tl, paginationLoop s1 (i2 :: tl) = paginationLoop s2 tl := by
    intro tl
    rw [paginationLoop_cons_success s1 i2 tl h1act h1run (by rw [h1att]; decide)
      (by rw [h1page, h1max]; omega) (Or.inr h2m) h2s hdup2]
  have hdup3 : s2.hasher.isDuplicate i3.afterHash = true := by
    unfold ContentHasher.isDuplicate
    rw [h2hasher, h3h, ContentHasher.contains_eq_decide_mem]
    simp
  have hstep3 := paginationLoop_cons_dup s2 i3 rest h2act h2run
    (by rw [h2att]; decide) (by rw [h2page, h2max]; omega) (Or.inr h3m) h3s hdup3
  refine ⟨?_, ?_, ?_, ?_⟩
  · rw [hstep1, hstep2, hstep3]
  · rw [hstep1, hstep2, hstep3]
    show s2.attempts + 1 = 3
    rw [h2att]
  · rw [hstep1, hstep2, hstep3]
    exact h2hasher
  · intro C j3 hCA hCB hjm hjs hjh
    have hdup3' : s2.hasher.isDuplicate j3.afterHash = false := by
      unfold ContentHasher.isDuplicate
      rw [h2hasher, hjh, ContentHasher.contains_eq_decide_mem]
      simp [hCA, hCB]
    have hstep3' := paginationLoop_cons_success s2 j3 [] h2act h2run
      (by rw [h2att]; decide) (by rw [h2page, h2max]; omega) (Or.inr hjm) hjs
      hdup3'
    rw [show ([i1, i2, j3] : List IterInput) = i1 :: i2 :: [j3] from rfl,
      hstep1, hstep2, hstep3']
    rfl

/-- Witness for C4: a concrete fresh running engine and concrete inputs with
fingerprints 11, 22, 11. -/
theorem fingerprint_loop_detection_witness :
    ((11 : Nat) ≠ 22 ∧
      2 ≤ runningEngine.hasher.lookbackSize ∧
      runningEngine.attempts = 0) ∧
    (paginationLoop runningEngine
        [⟨false, true, 11, [], 0, 0⟩, ⟨false, true, 22, [], 0, 0⟩,
          ⟨false, true, 11, [], 0, 0⟩]).2 = .duplicateContent :=
  ⟨⟨by decide, by decide, by decide⟩,
    (fingerprint_loop_detection runningEngine 11 22
      ⟨false, true, 11, [], 0, 0⟩ ⟨false, true, 22, [], 0, 0⟩
      ⟨false, true, 11, [], 0, 0⟩ []
      (by decide) (by decide) (by decide) (by decide) (by decide) (by decide)
      (by decide) (by decide) (by decide) (by decide) (by decide) (by decide)
      (by decide) (by decide) (by decide) (by decide)).1⟩

/-- C9: In auto mode the engine picks exactly the first available method in
the fixed priority order next-button, load-more, arrow, URL-pattern, API,
infinite-scroll; with no available detector `autoDetectAndExecute` returns
`false`; a loop iteration whose method execution returns `false` breaks the
loop as `noMorePages` (not an error exit); and a `start` whose loop returns
without throwing leaves the terminal state `COMPLETE`, not `ERROR`. -/
theorem auto_mode_priority :
    (∀ m : DetectedMethods,
      autoSelect m = priorityOrder.find? (fun meth => m.availableFor meth)) ∧
    (∀ (m : DetectedMethods) (exec : PagMethod → Bool),
      (∀ meth, m.availableFor meth = false) →
      autoDetectAndExecute m exec = false) ∧
    (∀ (m : DetectedMethods) (exec : PagMethod → Bool) (meth : PagMethod),
      autoSelect m = some meth →
      autoDetectAndExecute m exec = exec meth) ∧
    (∀ (s : EngineState) (inp : IterInput) (rest : List IterInput),
      s.isActive = true → s.currentState = PagState.RUNNING →
      s.attempts < MAX_ATTEMPTS → s.currentPage ≤ s.maxPages →
      inp.memoryHigh = false → inp.methodSuccess = false →
      paginationLoop s (inp :: rest) = (s, .noMorePages)) ∧
    (∀ (s : EngineState) (method : String) (now : Nat)
        (loopEffect : EngineState → EngineState × Bool),
      s.isActive = false → s.hasExtractor = true →
      (startE s method now loopEffect).1.currentState = PagState.COMPLETE ∧
      (startE s method now loopEffect).1.currentState ≠ PagState.ERROR) := by
  refine ⟨?_, ?_, ?_, ?_, ?_⟩
  · intro m
    rcases m with ⟨nb, lm, isc, ar, up, ap⟩
    cases nb <;> cases lm <;> cases isc <;> cases ar <;> cases up <;>
      cases ap <;> rfl
  · intro m exec hall
    rcases m with ⟨nb, lm, isc, ar, up, ap⟩
    have h1 := hall .nextButton
    have h2 := hall .loadMore
    have h3 := hall .infiniteScroll
    have h4 := hall .arrow
    have h5 := hall .urlPattern
    have h6 := hall .api
    simp only [DetectedMethods.availableFor] at h1 h2 h3 h4 h5 h6
    subst h1 h2 h3 h4 h5 h6
    rfl
  · intro m exec meth hsel
    unfold autoDetectAndExecute
    rw [hsel]
  · intro s inp rest hact hrun hatt hpage hmem hms
    exact paginationLoop_cons_noMore s inp rest hact hrun hatt hpage
      (Or.inr hmem) hms
  · intro s method now loopEffect hact hext
    constructor
    · show (startE s method now loopEffect).1.currentState = PagState.COMPLETE
      unfold startE
      rw [hact, hext]
      simp
      rfl
    · show (startE s method now loopEffect).1.currentState ≠ PagState.ERROR
      unfold startE
      rw [hact, hext]
      simp
      intro h
      rw [show (stopE _).currentState = PagState.COMPLETE from rfl] at h
      cases h

/-- Witness for C9: only load-more and infinite-scroll available selects
load-more; with everything unavailable the auto executor returns false; a
first-iteration method failure on the fresh running engine exits
`noMorePages`; and a non-throwing run on the ready engine ends `COMPLETE`. -/
theorem auto_mode_priority_witness :
    autoSelect ⟨false, true, true, false, false, false⟩
      = priorityOrder.find?
          (fun meth =>
            DetectedMethods.availableFor
              ⟨false, true, true, false, false, false⟩ meth) ∧
    autoDetectAndExecute ⟨false, false, false, false, false, false⟩
        (fun _ => true) = false ∧
    paginationLoop runningEngine [⟨false, false, 11, [], 0, 0⟩]
      = (runningEngine, .noMorePages) ∧
    (startE readyEngine "auto" 0 (fun e => (e, false))).1.currentState
      = PagState.COMPLETE :=
  ⟨auto_mode_priority.1 ⟨false, true, true, false, false, false⟩,
   auto_mode_priority.2.1 ⟨false, false, false, false, false, false⟩
     (fun _ => true) (by intro meth; cases meth <;> rfl),
   auto_mode_priority.2.2.2.1 runningEngine ⟨false, false, 11, [], 0, 0⟩ []
     (by decide) (by decide) (by decide) (by decide) (by decide) (by decide),
   (auto_mode_priority.2.2.2.2 readyEngine "auto" 0 (fun e => (e, false))
     (by decide) (by decide)).1⟩

/-- C10: calling `start()` before an image extractor has been set returns
after emitting only an error toast: the state (including `IDLE`
`currentState`, inactive flag, collected images, current page, checkpoint
slot, and the stopped memory monitor) is exactly the input state. -/
theorem start_without_extractor_noop (s : EngineState) (method : String)
    (now : Nat) (loopEffect : EngineState → EngineState × Bool)
    (hact : s.isActive = false) (hext : s.hasExtractor = false) :
    startE s method now loopEffect = (s, ["Image extractor not initialized"]) ∧
    (startE s method now loopEffect).1.currentState = s.currentState ∧
    (startE s method now loopEffect).1.isActive = false ∧
    (startE s method now loopEffect).1.collectedImages = s.collectedImages ∧
    (startE s method now loopEffect).1.currentPage = s.currentPage ∧
    (startE s method now loopEffect).1.checkpointStore = s.checkpointStore ∧
    (startE s method now loopEffect).1.memoryMonitorRunning
      = s.memoryMonitorRunning := by
  have hmain : startE s method now loopEffect
      = (s, ["Image extractor not initialized"]) := by
    unfold startE
    rw [hact, hext]
    simp
  rw [hmain]
  exact ⟨rfl, rfl, hact ▸ rfl, rfl, rfl, rfl, rfl⟩

/-- Witness for C10: the freshly constructed engine. -/
theorem start_without_extractor_noop_witness :
    (initialEngine.isActive = false ∧ initialEngine.hasExtractor = false) ∧
    startE initialEngine "auto" 0 (fun e => (e, false))
      = (initialEngine, ["Image extractor not initialized"]) ∧
    (startE initialEngine "auto" 0 (fun e => (e, false))).1.currentState
      = initialEngine.currentState :=
  ⟨⟨by decide, by decide⟩,
   (start_without_extractor_noop initialEngine "auto" 0 (fun e => (e, false))
      (by decide) (by decide)).1,
   (start_without_extractor_noop initialEngine "auto" 0 (fun e => (e, false))
      (by decide) (by decide)).2.1⟩

/-- C1: evaluation of `start()` at a run whose loop throws (the loop effect
saves a checkpoint at time 42 and then throws). The catch sets `ERROR`, but
the unconditional `stop()` in the `finally` overwrites it with `COMPLETE`
and clears the checkpoint slot, so the caller observes `COMPLETE`, not
`ERROR`, and no checkpoint survives. The memory monitor is stopped, and a
run whose loop returns normally likewise ends `COMPLETE` with the
checkpoint cleared. -/
theorem start_error_path_eval :
    ((startE readyEngine "auto" 0
        (fun e => (saveCheckpointE e 42, true))).1.currentState
      = PagState.COMPLETE) ∧
    ((startE readyEngine "auto" 0
        (fun e => (saveCheckpointE e 42, true))).1.currentState
      ≠ PagState.ERROR) ∧
    ((startE readyEngine "auto" 0
        (fun e => (saveCheckpointE e 42, true))).1.checkpointStore = none) ∧
    ((startE readyEngine "auto" 0
        (fun e => (saveCheckpointE e 42, true))).1.memoryMonitorRunning
      = false) ∧
    ((startE readyEngine "auto" 0 (fun e => (e, false))).1.currentState
      = PagState.COMPLETE) ∧
    ((startE readyEngine "auto" 0 (fun e => (e, false))).1.checkpointStore
      = none) := by
  refine ⟨by decide, by decide, by decide, by decide, by decide, by decide⟩

/-! ## Shared-collection lemmas (claim C2) -/

theorem any_url_eq (C : List Image) (u : String) :
    (C.any (fun e => e.fileUrl == u)) = decide (u ∈ urlsOf C) := by
  induction C with
  | nil => simp [urlsOf]
  | cons e C ih =>
    by_cases h : e.fileUrl = u
    · simp [urlsOf, List.any_cons, h]
    · simp only [List.any_cons, ih]
      have h' : ¬ u = e.fileUrl := fun he => h he.symm
      simp [urlsOf, h, h']

theorem urls_filter_new (C b : List Image) :
    urlsOf (b.filter (fun img => !(C.any (fun e => e.fileUrl == img.fileUrl))))
      = (urlsOf b).filter (fun u => !decide (u ∈ urlsOf C)) := by
  induction b with
  | nil => rfl
  | cons i b ih =>
    have hcons : urlsOf (i :: b) = i.fileUrl :: urlsOf b := rfl
    rw [List.filter_cons, any_url_eq, hcons, List.filter_cons]
    by_cases h : i.fileUrl ∈ urlsOf C
    · simp only [h, decide_True, Bool.not_true, Bool.false_eq_true, if_false]
      exact ih
    · simp only [h, decide_False, Bool.not_false, if_true]
      have : urlsOf (i :: b.filter
          (fun img => !(C.any (fun e => e.fileUrl == img.fileUrl))))
          = i.fileUrl :: urlsOf (b.filter
            (fun img => !(C.any (fun e => e.fileUrl == img.fileUrl)))) := rfl
      rw [this, ih]

theorem urlsOf_append (a b : List Image) :
    urlsOf (a ++ b) = urlsOf a ++ urlsOf b := by
  simp [urlsOf]

/-- The urls of the collection after one `addImages` call. -/
theorem urls_addImages (C b : List Image) :
    urlsOf (addImages C b).collection
      = urlsOf C ++ (urlsOf b).filter (fun u => !decide (u ∈ urlsOf C)) := by
  unfold addImages
  rw [urlsOf_append, urls_filter_new]

theorem keepFirstNew_cons (s : List String) (u : String) (us : List String) :
    keepFirstNew s (u :: us)
      = if u ∈ s then keepFirstNew s us else u :: keepFirstNew (u :: s) us := rfl

theorem keepFirstNew_cons_mem (s : List String) (u : String) (us : List String)
    (h : u ∈ s) : keepFirstNew s (u :: us) = keepFirstNew s us := by
  rw [keepFirstNew_cons, if_pos h]

theorem keepFirstNew_cons_not_mem (s : List String) (u : String)
    (us : List String) (h : u ∉ s) :
    keepFirstNew s (u :: us) = u :: keepFirstNew (u :: s) us := by
  rw [keepFirstNew_cons, if_neg h]

theorem keepFirstNew_congr (l : List String) :
    ∀ (s1 s2 : List String), (∀ x, x ∈ s1 ↔ x ∈ s2) →
    keepFirstNew s1 l = keepFirstNew s2 l := by
  induction l with
  | nil => intro s1 s2 _; rfl
  | cons u l ih =>
    intro s1 s2 hs
    by_cases h : u ∈ s1
    · rw [keepFirstNew_cons_mem s1 u l h,
        keepFirstNew_cons_mem s2 u l ((hs u).mp h)]
      exact ih s1 s2 hs
    · rw [keepFirstNew_cons_not_mem s1 u l h,
        keepFirstNew_cons_not_mem s2 u l (fun hc => h ((hs u).mpr hc))]
      refine congrArg _ (ih (u :: s1) (u :: s2) ?_)
      intro x
      simp [hs x]

theorem keepFirstNew_append (l1 : List String) :
    ∀ (s : List String) (l2 : List String),
    keepFirstNew s (l1 ++ l2)
      = keepFirstNew s l1 ++ keepFirstNew (s ++ l1) l2 := by
  induction l1 with
  | nil =>
    intro s l2
    simp [keepFirstNew]
  | cons u l1 ih =>
    intro s l2
    rw [List.cons_append]
    by_cases h : u ∈ s
    · rw [keepFirstNew_cons_mem s u (l1 ++ l2) h,
        keepFirstNew_cons_mem s u l1 h, ih s l2]
      refine congrArg _ (keepFirstNew_congr l2 (s ++ l1) (s ++ u :: l1) ?_)
      intro x
      by_cases hx : x = u
      · subst hx
        simp [h]
      · simp [hx]
    · rw [keepFirstNew_cons_not_mem s u (l1 ++ l2) h,
        keepFirstNew_cons_not_mem s u l1 h, ih (u :: s) l2, List.cons_append]
      refine congrArg _ (congrArg _
        (keepFirstNew_congr l2 ((u :: s) ++ l1) (s ++ u :: l1) ?_))
      intro x
      simp
      tauto

theorem keepFirstNew_of_nodup (b : List String) :
    ∀ (s : List String), b.Nodup →
    keepFirstNew s b = b.filter (fun u => !decide (u ∈ s)) := by
  induction b with
  | nil => intro s _; rfl
  | cons u b ih =>
    intro s hnd
    obtain ⟨hu, hnd'⟩ := List.nodup_cons.mp hnd
    rw [List.filter_cons]
    by_cases h : u ∈ s
    · rw [keepFirstNew_cons_mem s u b h]
      simp only [h, decide_True, Bool.not_true, Bool.false_eq_true, if_false]
      exact ih s hnd'
    · rw [keepFirstNew_cons_not_mem s u b h]
      simp only [h, decide_False, Bool.not_false, if_true]
      rw [ih (u :: s) hnd']
      refine congrArg _ (List.filter_congr ?_)
      intro x hx
      have hxu : ¬ x = u := fun e => hu (e ▸ hx)
      simp [List.mem_cons, hxu]

theorem keepFirstNew_nodup_and_fresh (l : List String) :
    ∀ (s : List String),
    (keepFirstNew s l).Nodup ∧ ∀ x ∈ keepFirstNew s l, x ∉ s := by
  induction l with
  | nil =>
    intro s
    exact ⟨List.nodup_nil, by intro x hx; cases hx⟩
  | cons u l ih =>
    intro s
    by_cases h : u ∈ s
    · rw [keepFirstNew_cons_mem s u l h]
      exact ih s
    · rw [keepFirstNew_cons_not_mem s u l h]
      obtain ⟨hnd, hfresh⟩ := ih (u :: s)
      refine ⟨List.nodup_cons.mpr ⟨?_, hnd⟩, ?_⟩
      · intro hmem
        exact hfresh u hmem (List.mem_cons_self u s)
      · intro x hx
        rcases List.mem_cons.mp hx with hxu | hxl
        · exact hxu ▸ h
        · exact fun hxs => hfresh x hxl (List.mem_cons_of_mem u hxs)

theorem urls_feedBatches (batches : List (List Image)) :
    ∀ (C : List Image), (∀ b ∈ batches, (urlsOf b).Nodup) →
    urlsOf (feedBatches C batches)
      = urlsOf C ++ keepFirstNew (urlsOf C) (urlsOf batches.flatten) := by
  induction batches with
  | nil =>
    intro C _
    simp [feedBatches, keepFirstNew, urlsOf]
  | cons b bs ih =>
    intro C hb
    have hstep : feedBatches C (b :: bs)
        = feedBatches (addImages C b).collection bs := rfl
    have hC' : urlsOf (addImages C b).collection
        = urlsOf C ++ keepFirstNew (urlsOf C) (urlsOf b) := by
      rw [urls_addImages C b,
        keepFirstNew_of_nodup (urlsOf b) (urlsOf C) (hb b (List.mem_cons_self b bs))]
    have hflat : urlsOf ((b :: bs).flatten) = urlsOf b ++ urlsOf bs.flatten := by
      rw [List.flatten_cons, urlsOf_append]
    rw [hstep, ih (addImages C b).collection
      (fun x hx => hb x (List.mem_cons_of_mem b hx)), hC', hflat,
      keepFirstNew_append (urlsOf b) (urlsOf C) (urlsOf bs.flatten),
      List.append_assoc]
    refine congrArg _ (congrArg _
      (keepFirstNew_congr (urlsOf bs.flatten)
        (urlsOf C ++ keepFirstNew (urlsOf C) (urlsOf b))
        (urlsOf C ++ urlsOf b) ?_))
    intro x
    constructor
    · intro hx
      rcases List.mem_append.mp hx with hx | hx
      · exact List.mem_append.mpr (Or.inl hx)
      · have := keepFirstNew_of_nodup (urlsOf b) (urlsOf C)
          (hb b (List.mem_cons_self b bs))
        rw [this] at hx
        exact List.mem_append.mpr (Or.inr (List.mem_of_mem_filter hx))
    · intro hx
      rcases List.mem_append.mp hx with hx | hx
      · exact List.mem_append.mpr (Or.inl hx)
      · by_cases hc : x ∈ urlsOf C
        · exact List.mem_append.mpr (Or.inl hc)
        · refine List.mem_append.mpr (Or.inr ?_)
          rw [keepFirstNew_of_nodup (urlsOf b) (urlsOf C)
            (hb b (List.mem_cons_self b bs))]
          exact List.mem_filter.mpr ⟨hx, by simp [hc]⟩

/-- C2 counterexample: from an empty collection, offering the single batch
`[{fileUrl := "a", meta := 0}, {fileUrl := "a", meta := 1}]` — two items
sharing a `fileUrl` — makes `addImages` report `added = 2` and leaves two
entries with the same `fileUrl` in the collection, refuting "no two entries
in the final collection share a fileUrl" for arbitrary batch sequences. -/
theorem addImages_intra_batch_dup_counterexample :
    (addImages [] [⟨"a", 0⟩, ⟨"a", 1⟩]).added = 2 ∧
    urlsOf (feedBatches [] [[⟨"a", 0⟩, ⟨"a", 1⟩]]) = ["a", "a"] ∧
    ¬ (urlsOf (feedBatches [] [[⟨"a", 0⟩, ⟨"a", 1⟩]])).Nodup := by
  refine ⟨rfl, rfl, ?_⟩
  intro h
  have : "a" ≠ "a" := List.rel_of_pairwise_cons h (List.mem_singleton.mpr rfl)
  exact this rfl

/-- C2 (amended): for every sequence of image batches in which no single
batch repeats a `fileUrl` internally, the final shared collection built by
`StateManager.addImages` from an empty collection has pairwise-distinct
`fileUrl`s, its urls are exactly the offered urls deduplicated keeping first
occurrences in order, and every call's returned `added` count equals the
number of offered items whose `fileUrl` was not already present (the last
part holds for arbitrary batches). -/
theorem addImages_dedup_insertion_order (batches : List (List Image))
    (hb : ∀ b ∈ batches, (urlsOf b).Nodup) :
    urlsOf (feedBatches [] batches)
      = keepFirstNew [] (urlsOf batches.flatten) ∧
    (urlsOf (feedBatches [] batches)).Nodup ∧
    ∀ (C b : List Image),
      (addImages C b).added
        = ((urlsOf b).filter (fun u => !decide (u ∈ urlsOf C))).length ∧
      (addImages C b).total = (addImages C b).collection.length := by
  have hmain := urls_feedBatches batches [] hb
  have hnilurl : urlsOf ([] : List Image) = [] := rfl
  rw [hnilurl, List.nil_append] at hmain
  refine ⟨hmain, ?_, ?_⟩
  · rw [hmain]
    exact (keepFirstNew_nodup_and_fresh (urlsOf batches.flatten) []).1
  · intro C b
    constructor
    · show (b.filter
          (fun img => !(C.any (fun e => e.fileUrl == img.fileUrl)))).length = _
      rw [← urls_filter_new C b]
      exact (List.length_map _ _).symm
    · rfl

/-- Witness for C2 (amended): two batches, each internally `fileUrl`-unique,
with a cross-batch repeat of `"a"`. -/
theorem addImages_dedup_insertion_order_witness :
    (∀ b ∈ [[(⟨"a", 0⟩ : Image)], [⟨"a", 2⟩, ⟨"b", 3⟩]], (urlsOf b).Nodup) ∧
    urlsOf (feedBatches [] [[(⟨"a", 0⟩ : Image)], [⟨"a", 2⟩, ⟨"b", 3⟩]])
      = keepFirstNew []
          (urlsOf ([[(⟨"a", 0⟩ : Image)], [⟨"a", 2⟩, ⟨"b", 3⟩]].flatten)) :=
  ⟨by decide,
   (addImages_dedup_insertion_order
      [[(⟨"a", 0⟩ : Image)], [⟨"a", 2⟩, ⟨"b", 3⟩]] (by decide)).1⟩

/-! ## Download retry lemmas (claim C8) -/

theorem runItem_finalRetries_le (maxR d : Nat) (outcomes : List Bool) :
    ∀ r, r ≤ maxR → (runItem maxR d r outcomes).finalRetries ≤ maxR := by
  induction outcomes with
  | nil =>
    intro r hr
    exact hr
  | cons ok rest ih =>
    intro r hr
    unfold runItem
    by_cases hok : ok = true
    · simp only [hok, if_true]
      exact hr
    · simp only [hok, if_false, Bool.false_eq_true]
      by_cases hlt : r < maxR
      · simp only [if_pos hlt]
        exact ih (r + 1) hlt
      · simp only [if_neg hlt]
        exact hr

theorem runItem_attempts_le (maxR d : Nat) (outcomes : List Bool) :
    ∀ r, (runItem maxR d r outcomes).attemptsUsed ≤ (maxR - r) + 1 := by
  induction outcomes with
  | nil =>
    intro r
    exact Nat.zero_le _
  | cons ok rest ih =>
    intro r
    unfold runItem
    by_cases hok : ok = true
    · simp only [hok, if_true]
      omega
    · simp only [hok, if_false, Bool.false_eq_true]
      by_cases hlt : r < maxR
      · simp only [if_pos hlt]
        show (runItem maxR d (r + 1) rest).attemptsUsed + 1 ≤ maxR - r + 1
        have := ih (r + 1)
        omega
      · simp only [if_neg hlt]
        omega

theorem runItem_delays_linear (maxR d : Nat) (outcomes : List Bool) :
    ∀ r, (runItem maxR d r outcomes).scheduledDelays
      = (List.range' (r + 1)
          (runItem maxR d r outcomes).scheduledDelays.length).map
          (fun i => d * i) := by
  induction outcomes with
  | nil =>
    intro r
    rfl
  | cons ok rest ih =>
    intro r
    unfold runItem
    by_cases hok : ok = true
    · simp only [hok, if_true]
      rfl
    · simp only [hok, if_false, Bool.false_eq_true]
      by_cases hlt : r < maxR
      · simp only [if_pos hlt]
        have hrec := ih (r + 1)
        simp only [List.length_cons, List.range'_succ, List.map_cons]
        exact congrArg _ hrec
      · simp only [if_neg hlt]
        rfl

theorem runItem_allfail (maxR d : Nat) (k : Nat) :
    ∀ r, r + k = maxR →
    runItem maxR d r (List.replicate (k + 1) false)
      = ⟨maxR, 1, (List.range' (r + 1) k).map (fun i => d * i),
          .permanentFail, k + 1⟩ := by
  induction k with
  | zero =>
    intro r hr
    have hr' : r = maxR := by omega
    subst hr'
    unfold runItem
    simp [List.replicate]
  | succ k ih =>
    intro r hr
    have hlt : r < maxR := by omega
    show runItem maxR d r (false :: List.replicate (k + 1) false) = _
    unfold runItem
    simp only [Bool.false_eq_true, if_false, if_pos hlt]
    rw [ih (r + 1) (by omega)]
    simp [List.range'_succ]

/-- C8 counterexample: with the configured ceiling `RETRY_ATTEMPTS = 3`, an
item that has failed 3 times has been re-queued three times (delays 1000,
2000, 3000 ms) and is dispatched a fourth time; when that fourth attempt
succeeds the permanent-failure counter was never incremented, and when it
fails the permanent failure is recorded only then. So "an item that has
failed maxRetries times is never re-queued for retry again and increments
the permanent-failure counter exactly once" is false at this input. -/
theorem downloadRetry_requeued_after_max_failures :
    runItem RETRY_ATTEMPTS RETRY_DELAY 0 [false, false, false, true]
      = ⟨3, 0, [1000, 2000, 3000], .succeeded, 4⟩ ∧
    ¬ ((runItem RETRY_ATTEMPTS RETRY_DELAY 0
        [false, false, false, true]).scheduledDelays.length ≤ 2) ∧
    ¬ ((runItem RETRY_ATTEMPTS RETRY_DELAY 0
        [false, false, false, true]).permFailures = 1) ∧
    runItem RETRY_ATTEMPTS RETRY_DELAY 0 [false, false, false, false]
      = ⟨3, 1, [1000, 2000, 3000], .permanentFail, 4⟩ := by
  refine ⟨by decide, by decide, by decide, by decide⟩

/-- C8 (amended): a queue item's `retries` counter never exceeds the retry
ceiling; an item is dispatched at most `maxRetries + 1` times (one initial
attempt plus `maxRetries` retries); each retry `k` is scheduled after the
linearly increasing delay `retryDelay * k`; and an item whose every dispatch
fails is re-queued exactly `maxRetries` times, then counted as a permanent
failure exactly once and never re-queued again. -/
theorem downloadRetry_ceiling_amended (maxR d : Nat) (outcomes : List Bool)
    (hstart : 0 ≤ maxR) :
    ((runItem maxR d 0 outcomes).finalRetries ≤ maxR) ∧
    ((runItem maxR d 0 outcomes).attemptsUsed ≤ maxR + 1) ∧
    ((runItem maxR d 0 outcomes).scheduledDelays
      = (List.range' 1
          (runItem maxR d 0 outcomes).scheduledDelays.length).map
          (fun i => d * i)) ∧
    (runItem maxR d 0 (List.replicate (maxR + 1) false)
      = ⟨maxR, 1, (List.range' 1 maxR).map (fun i => d * i),
          .permanentFail, maxR + 1⟩) := by
  refine ⟨runItem_finalRetries_le maxR d outcomes 0 hstart, ?_,
    runItem_delays_linear maxR d outcomes 0,
    runItem_allfail maxR d maxR 0 (by omega)⟩
  have := runItem_attempts_le maxR d outcomes 0
  omega

/-- Witness for C8 (amended) at the configured ceiling and delay. -/
theorem downloadRetry_ceiling_amended_witness :
    (0 ≤ RETRY_ATTEMPTS) ∧
    (runItem RETRY_ATTEMPTS RETRY_DELAY 0 [false, true]).finalRetries
      ≤ RETRY_ATTEMPTS ∧
    runItem RETRY_ATTEMPTS RETRY_DELAY 0
        (List.replicate (RETRY_ATTEMPTS + 1) false)
      = ⟨RETRY_ATTEMPTS, 1,
          (List.range' 1 RETRY_ATTEMPTS).map (fun i => RETRY_DELAY * i),
          .permanentFail, RETRY_ATTEMPTS + 1⟩ :=
  ⟨by decide,
   (downloadRetry_ceiling_amended RETRY_ATTEMPTS RETRY_DELAY [false, true]
      (by decide)).1,
   (downloadRetry_ceiling_amended RETRY_ATTEMPTS RETRY_DELAY [false, true]
      (by decide)).2.2.2⟩

/-! ## CheckpointManager theorem (claim C6) -/

/-- C6: `loadCheckpoint` returns `null` when the slot is empty, when the
stored version differs from the current schema version, or when the
timestamp is more than 24 hours old; in the version-mismatch and expired
cases the slot is cleared as a side effect; otherwise the stored data is
returned and the slot left intact. -/
theorem checkpoint_load_version_ttl (now : Nat) :
    (CheckpointManager.loadCheckpoint none now = (none, none)) ∧
    (∀ cp : StoredCheckpoint, cp.version ≠ CheckpointManager.currentVersion →
      CheckpointManager.loadCheckpoint (some cp) now = (none, none)) ∧
    (∀ cp : StoredCheckpoint, cp.version = CheckpointManager.currentVersion →
      (CHECKPOINT_TTL : Int) < (now : Int) - (cp.timestamp : Int) →
      CheckpointManager.loadCheckpoint (some cp) now = (none, none)) ∧
    (∀ cp : StoredCheckpoint, cp.version = CheckpointManager.currentVersion →
      ¬ (CHECKPOINT_TTL : Int) < (now : Int) - (cp.timestamp : Int) →
      CheckpointManager.loadCheckpoint (some cp) now = (some cp.data, some cp)) := by
  refine ⟨rfl, ?_, ?_, ?_⟩
  · intro cp hv
    unfold CheckpointManager.loadCheckpoint
    simp [hv, CheckpointManager.clearCheckpoint]
  · intro cp hv hexp
    unfold CheckpointManager.loadCheckpoint
    simp [hv, hexp, CheckpointManager.clearCheckpoint]
  · intro cp hv hfresh
    unfold CheckpointManager.loadCheckpoint
    simp [hv, hfresh]

/-- Witness for C6: at `now` = 100h, a checkpoint from 25 hours ago is
cleared and reported absent, one from 1 hour ago is returned intact. -/
theorem checkpoint_load_version_ttl_witness :
    ((⟨75 * 3600000, "1.0", witnessData⟩ : StoredCheckpoint).version = "1.0" ∧
      CheckpointManager.loadCheckpoint
        (some ⟨75 * 3600000, "1.0", witnessData⟩) (100 * 3600000)
        = (none, none)) ∧
    ((⟨99 * 3600000, "1.0", witnessData⟩ : StoredCheckpoint).version = "1.0" ∧
      CheckpointManager.loadCheckpoint
        (some ⟨99 * 3600000, "1.0", witnessData⟩) (100 * 3600000)
        = (some witnessData, some ⟨99 * 3600000, "1.0", witnessData⟩)) ∧
    ((⟨99 * 3600000, "0.9", witnessData⟩ : StoredCheckpoint).version ≠ "1.0" ∧
      CheckpointManager.loadCheckpoint
        (some ⟨99 * 3600000, "0.9", witnessData⟩) (100 * 3600000)
        = (none, none)) :=
  ⟨⟨by decide,
    (checkpoint_load_version_ttl (100 * 3600000)).2.2.1
      ⟨75 * 3600000, "1.0", witnessData⟩ (by decide) (by decide)⟩,
   ⟨by decide,
    (checkpoint_load_version_ttl (100 * 3600000)).2.2.2
      ⟨99 * 3600000, "1.0", witnessData⟩ (by decide) (by decide)⟩,
   ⟨by decide,
    (checkpoint_load_version_ttl (100 * 3600000)).2.1
      ⟨99 * 3600000, "0.9", witnessData⟩ (by decide)⟩⟩

/-- Witness for C7 at the engine's configuration. -/
theorem adaptiveTimer_optimalDelay_clamped_witness :
    AdaptiveTimer.engineTimer.responseTimes = [] ∧
    AdaptiveTimer.engineTimer.getOptimalDelay
      = AdaptiveTimer.engineTimer.defaultDelay ∧
    (AdaptiveTimer.engineTimer.minDelay ≤ AdaptiveTimer.engineTimer.defaultDelay ∧
      AdaptiveTimer.engineTimer.minDelay
        ≤ AdaptiveTimer.engineTimer.getOptimalDelay) :=
  ⟨by decide,
   (adaptiveTimer_optimalDelay_clamped AdaptiveTimer.engineTimer).1 (by decide),
   by decide,
   ((adaptiveTimer_optimalDelay_clamped AdaptiveTimer.engineTimer).2.2.1
      (by decide) (by decide)).1⟩

/-! ## Lock system lemmas (claim C3) -/

theorem Phase.not_crit_of_waiting {p : Phase} (h : p.isWaiting = true) :
    p.isCrit = false := by
  cases p <;> simp_all [Phase.isWaiting, Phase.isCrit]

theorem lockInv_init (s : LockSys) (h : LockInit s) : LockInv s := by
  obtain ⟨hl, hw1, hw2⟩ := h
  refine ⟨?_, ?_, ?_, ?_⟩
  · intro hc _
    rw [Phase.not_crit_of_waiting hw1] at hc
    cases hc
  · intro hc _
    rw [Phase.not_crit_of_waiting hw1] at hc
    cases hc
  · intro hc _
    rw [Phase.not_crit_of_waiting hw2] at hc
    cases hc
  · intro hlk
    rw [hl] at hlk
    cases hlk

theorem lockInv_step {tmo n1 n2 : Nat} {s s' : LockSys}
    (hinv : LockInv s) (hstep : LockStep tmo n1 n2 s s') : LockInv s' := by
  obtain ⟨c1, c2, c3, c4⟩ := hinv
  cases hstep with
  | acquire1 st hw hl =>
    refine ⟨?_, ?_, ?_, ?_⟩
    · intro _ hc2
      have hw1 : s.t1.isWaiting = true := by rw [hw]; rfl
      have := c3 hc2 hw1
      rw [hl] at this
      cases this
    · intro _ _
      rfl
    · intro _ _
      rfl
    · intro _
      exact Or.inl rfl
  | acquire2 st hw hl =>
    refine ⟨?_, ?_, ?_, ?_⟩
    · intro hc1 _
      have hw2 : s.t2.isWaiting = true := by rw [hw]; rfl
      have := c2 hc1 hw2
      rw [hl] at this
      cases this
    · intro _ _
      rfl
    · intro _ _
      rfl
    · intro _
      exact Or.inr rfl
  | timeout1 st hw hl hto =>
    refine ⟨?_, ?_, ?_, ?_⟩
    · intro hc _
      simp [Phase.isCrit] at hc
    · intro hc _
      simp [Phase.isCrit] at hc
    · intro _ hw'
      simp [Phase.isWaiting] at hw'
    · intro hlk
      cases hlk
  | timeout2 st hw hl hto =>
    refine ⟨?_, ?_, ?_, ?_⟩
    · intro _ hc
      simp [Phase.isCrit] at hc
    · intro _ hw'
      simp [Phase.isWaiting] at hw'
    · intro hc _
      simp [Phase.isCrit] at hc
    · intro hlk
      cases hlk
  | critStep1 k hk =>
    refine ⟨?_, ?_, ?_, ?_⟩
    · intro _ hc2
      exact c1 (by rw [hk]; rfl) hc2
    · intro _ hw2
      exact c2 (by rw [hk]; rfl) hw2
    · intro _ hw'
      simp [Phase.isWaiting] at hw'
    · intro hlk
      exact Or.inl rfl
  | critStep2 k hk =>
    refine ⟨?_, ?_, ?_, ?_⟩
    · intro hc1 _
      exact c1 hc1 (by rw [hk]; rfl)
    · intro _ hw'
      simp [Phase.isWaiting] at hw'
    · intro _ hw1
      exact c3 (by rw [hk]; rfl) hw1
    · intro hlk
      exact Or.inr rfl
  | release1 hk =>
    refine ⟨?_, ?_, ?_, ?_⟩
    · intro hc _
      simp [Phase.isCrit] at hc
    · intro hc _
      simp [Phase.isCrit] at hc
    · intro _ hw'
      simp [Phase.isWaiting] at hw'
    · intro hlk
      cases hlk
  | release2 hk =>
    refine ⟨?_, ?_, ?_, ?_⟩
    · intro _ hc
      simp [Phase.isCrit] at hc
    · intro _ hw'
      simp [Phase.isWaiting] at hw'
    · intro hc _
      simp [Phase.isCrit] at hc
    · intro hlk
      cases hlk
  | tick =>
    exact ⟨c1, c2, c3, c4⟩

theorem lockReach_trans {tmo n1 n2 : Nat} {a b c : LockSys}
    (hab : LockReach tmo n1 n2 a b) (hbc : LockReach tmo n1 n2 b c) :
    LockReach tmo n1 n2 a c := by
  induction hbc with
  | refl => exact hab
  | tail _ hstep ih => exact LockReach.tail ih hstep

theorem lockInv_reach {tmo n1 n2 : Nat} {s0 s : LockSys}
    (h0 : LockInit s0) (hr : LockReach tmo n1 n2 s0 s) : LockInv s := by
  induction hr with
  | refl => exact lockInv_init s0 h0
  | tail _ hstep ih => exact lockInv_step ih hstep

theorem rank_mono_step {tmo n1 n2 : Nat} {s s' : LockSys}
    (h : LockStep tmo n1 n2 s s') :
    s.t1.rank ≤ s'.t1.rank ∧ s.t2.rank ≤ s'.t2.rank := by
  cases h <;> constructor <;> simp_all [Phase.rank]

theorem rank_mono_reach {tmo n1 n2 : Nat} {s t : LockSys}
    (h : LockReach tmo n1 n2 s t) :
    s.t1.rank ≤ t.t1.rank ∧ s.t2.rank ≤ t.t2.rank := by
  induction h with
  | refl => exact ⟨Nat.le_refl _, Nat.le_refl _⟩
  | tail _ hstep ih =>
    obtain ⟨h1, h2⟩ := rank_mono_step hstep
    exact ⟨Nat.le_trans ih.1 h1, Nat.le_trans ih.2 h2⟩

theorem isCrit_iff_rank (p : Phase) : p.isCrit = true ↔ p.rank = 1 := by
  cases p <;> simp [Phase.isCrit, Phase.rank]

/-- C3: For two concurrent `withLock` calls on the same lock name, in every
state reachable from both callers polling on a free lock: (a) the two
critical sections are never simultaneously active; (b) a step in which one
caller's acquisition succeeds can happen only while the other caller is not
inside its critical section — so the second caller's operation starts only
after the first's completes or the second times out into a lock-timeout
failure; (c) once both callers are finished (normally or by timeout), the
lock entry is released; and (d) along any execution the critical-section
occupancies never interleave (no caller re-enters after the other has run). -/
theorem withLock_mutual_exclusion (tmo n1 n2 : Nat) (s0 s : LockSys)
    (hinit : LockInit s0) (hreach : LockReach tmo n1 n2 s0 s) :
    (¬ (s.t1.isCrit = true ∧ s.t2.isCrit = true)) ∧
    (∀ s', LockStep tmo n1 n2 s s' → s.t2.isWaiting = true →
      s'.t2.isCrit = true → s.t1.isCrit = false) ∧
    (∀ s', LockStep tmo n1 n2 s s' → s.t1.isWaiting = true →
      s'.t1.isCrit = true → s.t2.isCrit = false) ∧
    ((s.t1 = .done ∨ s.t1 = .failed) → (s.t2 = .done ∨ s.t2 = .failed) →
      s.lock = false) ∧
    (∀ sb sc, LockReach tmo n1 n2 s sb → LockReach tmo n1 n2 sb sc →
      s.t1.isCrit = true → sb.t2.isCrit = true → sc.t1.isCrit = true →
      False) ∧
    (∀ sb sc, LockReach tmo n1 n2 s sb → LockReach tmo n1 n2 sb sc →
      s.t2.isCrit = true → sb.t1.isCrit = true → sc.t2.isCrit = true →
      False) := by
  obtain ⟨c1, c2, c3, c4⟩ := lockInv_reach hinit hreach
  refine ⟨?_, ?_, ?_, ?_, ?_, ?_⟩
  · intro ⟨h1, h2⟩
    exact c1 h1 h2
  · intro s' hstep hw2 hc2'
    cases hstep with
    | acquire1 st hw hl =>
      rw [Phase.not_crit_of_waiting hw2] at hc2'
      cases hc2'
    | acquire2 st hw hl =>
      refine Bool.eq_false_iff.mpr (fun hc1 => ?_)
      have := c2 hc1 hw2
      rw [hl] at this
      cases this
    | timeout1 st hw hl hto =>
      rw [Phase.not_crit_of_waiting hw2] at hc2'
      cases hc2'
    | timeout2 st hw hl hto =>
      simp [Phase.isCrit] at hc2'
    | critStep1 k hk =>
      rw [Phase.not_crit_of_waiting hw2] at hc2'
      cases hc2'
    | critStep2 k hk =>
      rw [hk] at hw2
      simp [Phase.isWaiting] at hw2
    | release1 hk =>
      rw [Phase.not_crit_of_waiting hw2] at hc2'
      cases hc2'
    | release2 hk =>
      rw [hk] at hw2
      simp [Phase.isWaiting] at hw2
    | tick =>
      rw [Phase.not_crit_of_waiting hw2] at hc2'
      cases hc2'
  · intro s' hstep hw1 hc1'
    cases hstep with
    | acquire2 st hw hl =>
      rw [Phase.not_crit_of_waiting hw1] at hc1'
      cases hc1'
    | acquire1 st hw hl =>
      refine Bool.eq_false_iff.mpr (fun hc2 => ?_)
      have := c3 hc2 hw1
      rw [hl] at this
      cases this
    | timeout2 st hw hl hto =>
      rw [Phase.not_crit_of_waiting hw1] at hc1'
      cases hc1'
    | timeout1 st hw hl hto =>
      simp [Phase.isCrit] at hc1'
    | critStep2 k hk =>
      rw [Phase.not_crit_of_waiting hw1] at hc1'
      cases hc1'
    | critStep1 k hk =>
      rw [hk] at hw1
      simp [Phase.isWaiting] at hw1
    | release2 hk =>
      rw [Phase.not_crit_of_waiting hw1] at hc1'
      cases hc1'
    | release1 hk =>
      rw [hk] at hw1
      simp [Phase.isWaiting] at hw1
    | tick =>
      rw [Phase.not_crit_of_waiting hw1] at hc1'
      cases hc1'
  · intro h1 h2
    cases hlk : s.lock
    · rfl
    · exfalso
      rcases c4 hlk with hc | hc
      · rcases h1 with h | h <;> rw [h] at hc <;> simp [Phase.isCrit] at hc
      · rcases h2 with h | h <;> rw [h] at hc <;> simp [Phase.isCrit] at hc
  · intro sb sc hab hbc h1 hb2 hc1
    have hr1 : s.t1.rank = 1 := (isCrit_iff_rank s.t1).mp h1
    have hrc : sc.t1.rank = 1 := (isCrit_iff_rank sc.t1).mp hc1
    have hm1 := (rank_mono_reach hab).1
    have hm2 := (rank_mono_reach hbc).1
    have hrb : sb.t1.rank = 1 := by omega
    have hb1 : sb.t1.isCrit = true := (isCrit_iff_rank sb.t1).mpr hrb
    obtain ⟨d1, _, _, _⟩ :=
      lockInv_reach hinit (lockReach_trans hreach hab)
    exact d1 hb1 hb2
  · intro sb sc hab hbc h2 hb1 hc2
    have hr2 : s.t2.rank = 1 := (isCrit_iff_rank s.t2).mp h2
    have hrc : sc.t2.rank = 1 := (isCrit_iff_rank sc.t2).mp hc2
    have hm1 := (rank_mono_reach hab).2
    have hm2 := (rank_mono_reach hbc).2
    have hrb : sb.t2.rank = 1 := by omega
    have hb2 : sb.t2.isCrit = true := (isCrit_iff_rank sb.t2).mpr hrb
    obtain ⟨d1, _, _, _⟩ :=
      lockInv_reach hinit (lockReach_trans hreach hab)
    exact d1 hb1 hb2

/-- Witness for C3: the initial state with both callers polling at time 0,
under the configured 5000ms timeout. -/
theorem withLock_mutual_exclusion_witness :
    LockInit ⟨false, .waiting 0, .waiting 0, 0⟩ ∧
    ¬ (((⟨false, .waiting 0, .waiting 0, 0⟩ : LockSys).t1.isCrit = true) ∧
       ((⟨false, .waiting 0, .waiting 0, 0⟩ : LockSys).t2.isCrit = true)) :=
  ⟨⟨rfl, rfl, rfl⟩,
   (withLock_mutual_exclusion LOCK_TIMEOUT 1 1
      ⟨false, .waiting 0, .waiting 0, 0⟩ ⟨false, .waiting 0, .waiting 0, 0⟩
      ⟨rfl, rfl, rfl⟩
      (LockReach.refl ⟨false, .waiting 0, .waiting 0, 0⟩)).1⟩

end Chrome
